import Mathlib

/-!
Verification of the metrics-catalog diff tool (`main.go` and the module's
comparison source file).  The Go source is embedded shallowly:

* Go `float64` is modelled by `Float64` below: the program only ever compares
  floats with the IEEE-754 equality operator, under which NaN is unequal to
  every value (including itself) while all finite values compare by numeric
  value; finite values are modelled as rationals.
* Go maps (`map[string]Metric`, `map[string]string`) are modelled as
  association lists.  A Go map always has pairwise-distinct keys; this
  invariant appears as `nodupKeys` hypotheses.  Lookup order independence is
  proved explicitly where the spec demands it.
* `sort.Slice` / `sort.Strings` are modelled by a verified insertion sort.
  In every reachable call the sorted elements have pairwise-distinct sort
  keys, so any correct sorting algorithm produces the same output list.
-/

/-- Model of Go `float64` restricted to what the program observes: the code
only compares floats with `!=` (IEEE-754 equality), under which `nan` differs
from everything including itself, and finite values compare by value. -/
inductive Float64 where
  | nan : Float64
  | val : ℚ → Float64
deriving DecidableEq

/-- IEEE-754 equality test on the `Float64` model (Go's `==` on `float64`). -/
def Float64.beq : Float64 → Float64 → Bool
  | .nan, _ => false
  | _, .nan => false
  | .val a, .val b => a == b

/-- Lexicographic strict order on char lists, by code point.  Go compares
strings bytewise over UTF-8, which coincides with code-point order. -/
def charListLt : List Char → List Char → Bool
  | [], [] => false
  | [], _ :: _ => true
  | _ :: _, [] => false
  | a :: as, b :: bs => if a < b then true else if b < a then false else charListLt as bs

/-- Executable strict order on strings (kernel-reducible, unlike
`String.decidableLT`). -/
def strLtB (a b : String) : Bool := charListLt a.data b.data

/-- Executable `≤` on strings. -/
def strLeB (a b : String) : Bool := !(strLtB b a)

/-- Insert into a sorted list, in front of the first element not below `a`. -/
def orderedInsert (le : α → α → Bool) (a : α) : List α → List α
  | [] => [a]
  | b :: l => if le a b then a :: b :: l else b :: orderedInsert le a l

/-- Insertion sort; models `sort.Strings` / `sort.Slice` of the Go source (on
inputs with pairwise-distinct sort keys every sorting algorithm agrees). -/
def insertionSortBy (le : α → α → Bool) : List α → List α
  | [] => []
  | a :: l => orderedInsert le a (insertionSortBy le l)

/-- Keys of an association list (the key set of the modelled Go map). -/
abbrev keysOf (l : List (α × β)) : List α := l.map Prod.fst

/-- The Go-map invariant: all keys pairwise distinct. -/
abbrev nodupKeys (l : List (α × β)) : Prop := (keysOf l).Nodup

/-- One metric record, mirroring the `Metric` struct of the comparison source
(field for field; `Namespace` is renamed `namespace_` because `namespace` is a
Lean keyword; `uint32` fields carry only equality tests here, so `Nat`
suffices, and `int64` becomes `Int`). -/
structure Metric where
  name : String
  subsystem : String
  namespace_ : String
  help : String
  type : String
  deprecatedVersion : String
  stabilityLevel : String
  labels : List String
  buckets : List Float64
  objectives : List (Float64 × Float64)
  ageBuckets : Nat
  bufCap : Nat
  maxAge : Int
  constLabels : List (String × String)
deriving DecidableEq

/-- Identity key of a metric: `metricKey` from the source, joining the
non-empty components of namespace/subsystem/name with `"_"`. -/
def metricKey (m : Metric) : String :=
  let parts : List String := []
  let parts := if m.namespace_ ≠ "" then parts ++ [m.namespace_] else parts
  let parts := if m.subsystem ≠ "" then parts ++ [m.subsystem] else parts
  let parts := parts ++ [m.name]
  String.intercalate "_" parts

/-- `equalStringSlices` of the source: length check plus element-wise `==`. -/
def equalStringSlices : List String → List String → Bool
  | [], [] => true
  | _ :: _, [] => false
  | [], _ :: _ => false
  | a :: as, b :: bs => (a == b) && equalStringSlices as bs

/-- `equalFloat64Slices` of the source: length check plus element-wise IEEE
equality (`a[i] != b[i]` in Go). -/
def equalFloat64Slices : List Float64 → List Float64 → Bool
  | [], [] => true
  | _ :: _, [] => false
  | [], _ :: _ => false
  | a :: as, b :: bs => Float64.beq a b && equalFloat64Slices as bs

/-- `reflect.DeepEqual` on `map[string]string`: same key set with the same
values, order-independent.  (Go additionally distinguishes a nil map from an
empty one; no compared behaviour in this development depends on that.) -/
def deepEqualStringMap (a b : List (String × String)) : Bool :=
  a.all (fun p => b.lookup p.1 == some p.2) && b.all (fun p => a.lookup p.1 == some p.2)

/-- Backquote a label, `fmt.Sprintf`-style. -/
def quoteLabel (s : String) : String := "`" ++ s ++ "`"

/-- `sort.Strings`. -/
def sortStrings (l : List String) : List String := insertionSortBy strLeB l

/-- `compareLabelSlices` of the source: set membership per side (the Go
`map[string]bool` sets are modelled by `dedup`), quoting before sorting, then
the added/removed messages joined by `" <br> "`, or the reorder message when
both set differences are empty. -/
def compareLabelSlices (oldLabels newLabels : List String) : String :=
  let added := (newLabels.dedup.filter (fun l => decide (l ∉ oldLabels))).map quoteLabel
  let removed := (oldLabels.dedup.filter (fun l => decide (l ∉ newLabels))).map quoteLabel
  let added := sortStrings added
  let removed := sortStrings removed
  let changes :=
    (if added.length > 0 then
       ["Added labels: [" ++ String.intercalate ", " added ++ "]."] else [])
    ++ (if removed.length > 0 then
       ["Removed labels: [" ++ String.intercalate ", " removed ++ "]."] else [])
  if changes.length = 0 then
    "Labels reordered: [" ++ String.intercalate ", " oldLabels ++ "] → ["
      ++ String.intercalate ", " newLabels ++ "]"
  else
    String.intercalate " <br> " changes

/-- The three-way deprecated-version comparator (the `DeprecatedVersion`
branch of `compareMetrics` in the source). -/
def deprecationChange (o n : String) : List String :=
  if o ≠ n then
    if o = "" then ["Marked as deprecated in version `" ++ n ++ "`."]
    else if n = "" then ["No longer marked as deprecated."]
    else ["Deprecated version changed from `" ++ o ++ "` to `" ++ n ++ "`."]
  else []

/-- The bucket-boundaries comparator (the `Buckets` branch of
`compareMetrics` in the source). -/
def bucketsChange (a b : List Float64) : List String :=
  if !(equalFloat64Slices a b) then ["Buckets changed."] else []

/-- The field-comparator body run on a matched (old, new) record pair: the
change list accumulated by `compareMetrics` in the source, in source order. -/
def computeChanges (oldMetric newMetric : Metric) : List String :=
  (if oldMetric.help ≠ newMetric.help then ["Help text changed."] else [])
  ++ (if oldMetric.type ≠ newMetric.type then
        ["Type changed from `" ++ oldMetric.type ++ "` to `" ++ newMetric.type ++ "`."]
      else [])
  ++ (if oldMetric.stabilityLevel ≠ newMetric.stabilityLevel then
        ["Stability level changed from `" ++ oldMetric.stabilityLevel ++ "` to `"
          ++ newMetric.stabilityLevel ++ "`."]
      else [])
  ++ deprecationChange oldMetric.deprecatedVersion newMetric.deprecatedVersion
  ++ (if oldMetric.ageBuckets ≠ newMetric.ageBuckets then
        ["AgeBuckets changed from `" ++ toString oldMetric.ageBuckets ++ "` to `"
          ++ toString newMetric.ageBuckets ++ "`."]
      else [])
  ++ (if oldMetric.bufCap ≠ newMetric.bufCap then
        ["BufCap changed from `" ++ toString oldMetric.bufCap ++ "` to `"
          ++ toString newMetric.bufCap ++ "`."]
      else [])
  ++ (if oldMetric.maxAge ≠ newMetric.maxAge then
        ["MaxAge changed from `" ++ toString oldMetric.maxAge ++ "` to `"
          ++ toString newMetric.maxAge ++ "`."]
      else [])
  ++ (if !(deepEqualStringMap oldMetric.constLabels newMetric.constLabels) then
        ["ConstLabels changed."]
      else [])
  ++ (if !(equalStringSlices oldMetric.labels newMetric.labels) then
        [compareLabelSlices oldMetric.labels newMetric.labels]
      else [])
  ++ bucketsChange oldMetric.buckets newMetric.buckets

/-- Diff classification tag. -/
inductive DiffType where
  | Added : DiffType
  | Removed : DiffType
  | Updated : DiffType
deriving DecidableEq

/-- One entry of the diff report, mirroring `MetricDiff` of the source. -/
structure MetricDiff where
  key : String
  type : DiffType
  oldMetric : Option Metric
  newMetric : Option Metric
  changes : List String
deriving DecidableEq

/-- Sort key comparison used by the final `sort.Slice` call. -/
def diffLe (a b : MetricDiff) : Bool := strLeB a.key b.key

/-- The final ordering step of `compareMetrics`. -/
def sortByKey (l : List MetricDiff) : List MetricDiff := insertionSortBy diffLe l

/-- Body of the first loop of `compareMetrics` for one entry of `new`:
an `Added` diff when the key is absent from `old`, an `Updated` diff when the
comparators report changes, and nothing otherwise. -/
def diffForNewEntry (old : List (String × Metric)) (e : String × Metric) :
    Option MetricDiff :=
  match old.lookup e.1 with
  | some oldMetric =>
    let changes := computeChanges oldMetric e.2
    if changes = [] then none
    else some ⟨e.1, DiffType.Updated, some oldMetric, some e.2, changes⟩
  | none => some ⟨e.1, DiffType.Added, none, some e.2, []⟩

/-- Body of the second loop of `compareMetrics` for one entry of `old`:
a `Removed` diff when the key is absent from `new`. -/
def diffForOldEntry (new : List (String × Metric)) (e : String × Metric) :
    Option MetricDiff :=
  match new.lookup e.1 with
  | some _ => none
  | none => some ⟨e.1, DiffType.Removed, some e.2, none, []⟩

/-- `compareMetrics` of the source: the added/updated loop over `new`, the
removed loop over `old`, then the sort by key. -/
def compareMetrics (old new : List (String × Metric)) : List MetricDiff :=
  sortByKey (new.filterMap (diffForNewEntry old) ++ old.filterMap (diffForOldEntry new))

/-- Go map insertion: replace the value when the key is present, append a new
entry otherwise. -/
def insertGo [BEq α] (m : List (α × β)) (k : α) (v : β) : List (α × β) :=
  if (m.lookup k).isSome then
    m.map (fun p => if p.1 == k then (k, v) else p)
  else m ++ [(k, v)]

/-- The indexing loop of `loadMetrics`: fold the decoded records into a keyed
map, later records silently replacing earlier ones with the same key. -/
def indexMetrics (ms : List Metric) : List (String × Metric) :=
  ms.foldl (fun acc m => insertGo acc (metricKey m) m) []

/-! ### Bridging the executable string order to the mathematical order -/

theorem charListLt_iff (as bs : List Char) :
    charListLt as bs = true ↔ List.Lex (· < ·) as bs := by
  induction as generalizing bs with
  | nil =>
    cases bs with
    | nil =>
      simp only [charListLt, Bool.false_eq_true, false_iff]
      intro h; nomatch h
    | cons b bs =>
      simp only [charListLt, true_iff]
      exact List.Lex.nil
  | cons a as ih =>
    cases bs with
    | nil =>
      simp only [charListLt, Bool.false_eq_true, false_iff]
      intro h; nomatch h
    | cons b bs =>
      simp only [charListLt]
      rcases lt_trichotomy a b with hab | hab | hab
      · rw [if_pos hab]
        exact iff_of_true rfl (List.Lex.rel hab)
      · subst hab
        rw [if_neg (lt_irrefl a), if_neg (lt_irrefl a), ih bs]
        constructor
        · exact fun h => List.Lex.cons h
        · intro h
          cases h with
          | cons h => exact h
          | rel h => exact absurd h (lt_irrefl a)
      · rw [if_neg (asymm hab), if_pos hab]
        refine iff_of_false (by simp) ?_
        intro h
        cases h with
        | cons h => exact absurd hab (lt_irrefl a)
        | rel h => exact absurd hab (asymm h)

theorem strLtB_iff (a b : String) : strLtB a b = true ↔ a < b := by
  rw [String.lt_iff_toList_lt]
  exact charListLt_iff a.data b.data

theorem strLeB_iff (a b : String) : strLeB a b = true ↔ a ≤ b := by
  simp only [strLeB, Bool.not_eq_true']
  rw [← Bool.not_eq_true, strLtB_iff, not_lt]

theorem strLeB_total (a b : String) (h : strLeB a b = false) : strLeB b a = true := by
  have hna : ¬ a ≤ b := by
    intro hle
    rw [(strLeB_iff a b).mpr hle] at h
    cases h
  exact (strLeB_iff b a).mpr (le_of_not_le hna)

theorem strLeB_trans (a b c : String) (h₁ : strLeB a b = true) (h₂ : strLeB b c = true) :
    strLeB a c = true :=
  (strLeB_iff a c).mpr (le_trans ((strLeB_iff a b).mp h₁) ((strLeB_iff b c).mp h₂))

/-! ### Insertion sort: permutation and sortedness -/

theorem perm_orderedInsert (le : α → α → Bool) (a : α) (l : List α) :
    (orderedInsert le a l).Perm (a :: l) := by
  induction l with
  | nil => exact List.Perm.refl _
  | cons b l ih =>
    simp only [orderedInsert]
    cases h : le a b with
    | true =>
      rw [if_pos rfl]
    | false =>
      rw [if_neg Bool.false_ne_true]
      exact (ih.cons b).trans (List.Perm.swap a b l)

theorem perm_insertionSortBy (le : α → α → Bool) (l : List α) :
    (insertionSortBy le l).Perm l := by
  induction l with
  | nil => exact List.Perm.refl _
  | cons a l ih =>
    simp only [insertionSortBy]
    exact (perm_orderedInsert le a _).trans (ih.cons a)

theorem pairwise_orderedInsert (le : α → α → Bool)
    (htot : ∀ x y, le x y = false → le y x = true)
    (htrans : ∀ x y z, le x y = true → le y z = true → le x z = true)
    (a : α) (l : List α) (hl : l.Pairwise (fun x y => le x y = true)) :
    (orderedInsert le a l).Pairwise (fun x y => le x y = true) := by
  induction l with
  | nil => simp [orderedInsert]
  | cons b l ih =>
    rcases List.pairwise_cons.mp hl with ⟨hb, hl'⟩
    simp only [orderedInsert]
    cases h : le a b with
    | true =>
      rw [if_pos rfl]
      refine List.pairwise_cons.mpr ⟨?_, hl⟩
      intro x hx
      rcases List.mem_cons.mp hx with rfl | hx
      · exact h
      · exact htrans a b x h (hb x hx)
    | false =>
      rw [if_neg Bool.false_ne_true]
      refine List.pairwise_cons.mpr ⟨?_, ih hl'⟩
      intro x hx
      rcases List.mem_cons.mp ((perm_orderedInsert le a l).mem_iff.mp hx) with rfl | hx'
      · exact htot _ _ h
      · exact hb x hx'

theorem pairwise_insertionSortBy (le : α → α → Bool)
    (htot : ∀ x y, le x y = false → le y x = true)
    (htrans : ∀ x y z, le x y = true → le y z = true → le x z = true)
    (l : List α) :
    (insertionSortBy le l).Pairwise (fun x y => le x y = true) := by
  induction l with
  | nil => simp [insertionSortBy]
  | cons a l ih =>
    simp only [insertionSortBy]
    exact pairwise_orderedInsert le htot htrans a _ ih

/-! ### Association-list lookup (the Go map model) -/

theorem lookup_eq_none_iff [BEq α] [LawfulBEq α] (l : List (α × β)) (k : α) :
    l.lookup k = none ↔ k ∉ keysOf l := by
  induction l with
  | nil => simp [List.lookup]
  | cons e l ih =>
    obtain ⟨a, b⟩ := e
    by_cases hk : k = a
    · subst hk
      simp [List.lookup, keysOf]
    · have hb : (k == a) = false := beq_eq_false_iff_ne.mpr hk
      simp [List.lookup, hb, hk, ih, keysOf]

theorem lookup_eq_some_of_mem [BEq α] [LawfulBEq α] {l : List (α × β)} {k : α} {v : β}
    (h : nodupKeys l) (hm : (k, v) ∈ l) : l.lookup k = some v := by
  induction l with
  | nil => cases hm
  | cons e l ih =>
    obtain ⟨a, b⟩ := e
    have hn := List.nodup_cons.mp h
    rcases List.mem_cons.mp hm with he | hm'
    · injection he with h1 h2
      subst h1; subst h2
      simp [List.lookup]
    · have hk : k ≠ a := by
        rintro rfl
        exact hn.1 (List.mem_map.mpr ⟨(k, v), hm', rfl⟩)
      have hb : (k == a) = false := beq_eq_false_iff_ne.mpr hk
      simp only [List.lookup, hb]
      exact ih hn.2 hm'

theorem mem_of_lookup_eq_some [BEq α] [LawfulBEq α] {l : List (α × β)} {k : α} {v : β}
    (h : l.lookup k = some v) : (k, v) ∈ l := by
  induction l with
  | nil => simp [List.lookup] at h
  | cons e l ih =>
    obtain ⟨a, b⟩ := e
    simp only [List.lookup] at h
    cases hk : k == a with
    | true =>
      rw [hk] at h
      simp only [Option.some.injEq] at h
      exact List.mem_cons.mpr (Or.inl (by rw [eq_of_beq hk, h]))
    | false =>
      rw [hk] at h
      exact List.mem_cons.mpr (Or.inr (ih h))

theorem lookup_perm [BEq α] [LawfulBEq α] {l l' : List (α × β)} (hp : l.Perm l')
    (h : nodupKeys l) (k : α) : l.lookup k = l'.lookup k := by
  have h' : nodupKeys l' := (hp.map Prod.fst).nodup h
  cases hl : l.lookup k with
  | none =>
    have hk : k ∉ keysOf l := (lookup_eq_none_iff l k).mp hl
    have hk' : k ∉ keysOf l' := fun hm => hk ((hp.map Prod.fst).mem_iff.mpr hm)
    exact ((lookup_eq_none_iff l' k).mpr hk').symm
  | some v =>
    exact (lookup_eq_some_of_mem h' (hp.mem_iff.mp (mem_of_lookup_eq_some hl))).symm

/-! ### Reflexivity of the field comparators -/

theorem Float64.beq_self {x : Float64} (h : x ≠ Float64.nan) : Float64.beq x x = true := by
  cases x with
  | nan => exact absurd rfl h
  | val q => simp [Float64.beq]

theorem equalStringSlices_self (l : List String) : equalStringSlices l l = true := by
  induction l with
  | nil => rfl
  | cons a l ih => simp [equalStringSlices, ih]

theorem equalFloat64Slices_self {l : List Float64} (h : Float64.nan ∉ l) :
    equalFloat64Slices l l = true := by
  induction l with
  | nil => rfl
  | cons a l ih =>
    simp only [equalFloat64Slices, Bool.and_eq_true]
    refine ⟨Float64.beq_self ?_, ih fun hm => h (List.mem_cons_of_mem a hm)⟩
    rintro rfl
    exact h (List.mem_cons_self _ _)

theorem deepEqualStringMap_self {m : List (String × String)} (h : nodupKeys m) :
    deepEqualStringMap m m = true := by
  simp only [deepEqualStringMap, Bool.and_eq_true, List.all_eq_true]
  constructor <;>
  · intro p hp
    rw [lookup_eq_some_of_mem h (by rw [Prod.mk.eta]; exact hp)]
    simp

theorem deprecationChange_self (v : String) : deprecationChange v v = [] := by
  simp [deprecationChange]

theorem computeChanges_self (m : Metric) (hcl : nodupKeys m.constLabels)
    (hnan : Float64.nan ∉ m.buckets) : computeChanges m m = [] := by
  simp [computeChanges, deprecationChange_self, bucketsChange,
        equalStringSlices_self, equalFloat64Slices_self hnan,
        deepEqualStringMap_self hcl]

/-! ### Inversion of the two loop bodies -/

theorem diffForNewEntry_eq_some_iff {old : List (String × Metric)}
    {e : String × Metric} {d : MetricDiff} :
    diffForNewEntry old e = some d ↔
      (old.lookup e.1 = none ∧ d = ⟨e.1, DiffType.Added, none, some e.2, []⟩) ∨
      (∃ om, old.lookup e.1 = some om ∧ computeChanges om e.2 ≠ [] ∧
        d = ⟨e.1, DiffType.Updated, some om, some e.2, computeChanges om e.2⟩) := by
  unfold diffForNewEntry
  cases hl : old.lookup e.1 with
  | none => simp [eq_comm]
  | some om =>
    by_cases hc : computeChanges om e.2 = [] <;> simp [hc, eq_comm]

theorem diffForOldEntry_eq_some_iff {new : List (String × Metric)}
    {e : String × Metric} {d : MetricDiff} :
    diffForOldEntry new e = some d ↔
      new.lookup e.1 = none ∧ d = ⟨e.1, DiffType.Removed, some e.2, none, []⟩ := by
  unfold diffForOldEntry
  cases hl : new.lookup e.1 with
  | none => simp [eq_comm]
  | some om => simp

theorem key_of_diffForNewEntry {old : List (String × Metric)} {e : String × Metric}
    {d : MetricDiff} (h : diffForNewEntry old e = some d) : d.key = e.1 := by
  rcases diffForNewEntry_eq_some_iff.mp h with ⟨_, rfl⟩ | ⟨om, _, _, rfl⟩ <;> rfl

theorem key_of_diffForOldEntry {new : List (String × Metric)} {e : String × Metric}
    {d : MetricDiff} (h : diffForOldEntry new e = some d) : d.key = e.1 := by
  rcases diffForOldEntry_eq_some_iff.mp h with ⟨_, rfl⟩
  rfl

/-! ### Filtering the loop outputs by key -/

theorem filter_key_filterMap_of_not_mem {f : String × Metric → Option MetricDiff}
    (hf : ∀ e d, f e = some d → d.key = e.1)
    {l : List (String × Metric)} {k : String} (h : k ∉ keysOf l) :
    (l.filterMap f).filter (fun d => d.key == k) = [] := by
  induction l with
  | nil => rfl
  | cons e l ih =>
    simp only [keysOf, List.map_cons, List.mem_cons, not_or] at h
    obtain ⟨hk, h'⟩ := h
    rw [List.filterMap_cons]
    cases hfe : f e with
    | none => exact ih h'
    | some d =>
      have hdk : (d.key == k) = false := beq_eq_false_iff_ne.mpr (by rw [hf e d hfe]; exact (Ne.symm hk))
      simp only [List.filter_cons, hdk, Bool.false_eq_true, if_false]
      exact ih h'

theorem filter_key_filterMap_of_mem {f : String × Metric → Option MetricDiff}
    (hf : ∀ e d, f e = some d → d.key = e.1)
    {l : List (String × Metric)} {k : String} {m : Metric}
    (hnd : nodupKeys l) (hm : (k, m) ∈ l) :
    (l.filterMap f).filter (fun d => d.key == k) = (f (k, m)).toList := by
  induction l with
  | nil => cases hm
  | cons e l ih =>
    simp only [nodupKeys, keysOf, List.map_cons, List.nodup_cons] at hnd
    obtain ⟨hne, hnd'⟩ := hnd
    rcases List.mem_cons.mp hm with he | hm'
    · subst he
      rw [List.filterMap_cons]
      cases hfe : f (k, m) with
      | none =>
        simp only [Option.toList_none]
        exact filter_key_filterMap_of_not_mem hf hne
      | some d =>
        have hdk : (d.key == k) = true := by rw [hf _ d hfe]; exact beq_self_eq_true k
        simp only [List.filter_cons, hdk, if_true, Option.toList_some]
        rw [filter_key_filterMap_of_not_mem hf hne]
    · have hkm : k ∈ keysOf l := List.mem_map.mpr ⟨(k, m), hm', rfl⟩
      have hk : k ≠ e.1 := fun hh => hne (hh ▸ hkm)
      rw [List.filterMap_cons]
      cases hfe : f e with
      | none => exact ih hnd' hm'
      | some d =>
        have hdk : (d.key == k) = false :=
          beq_eq_false_iff_ne.mpr (by rw [hf e d hfe]; exact (Ne.symm hk))
        simp only [List.filter_cons, hdk, Bool.false_eq_true, if_false]
        exact ih hnd' hm'

theorem keys_filterMap_sublist {f : String × Metric → Option MetricDiff}
    (hf : ∀ e d, f e = some d → d.key = e.1) (l : List (String × Metric)) :
    ((l.filterMap f).map (fun d => d.key)).Sublist (keysOf l) := by
  induction l with
  | nil => simp
  | cons e l ih =>
    rw [List.filterMap_cons]
    cases hfe : f e with
    | none => exact ih.cons e.1
    | some d =>
      simp only [List.map_cons]
      rw [hf e d hfe]
      exact ih.cons₂ e.1

/-! ### Example records used by witnesses -/

/-- A record with every optional field empty. -/
def emptyMetric : Metric := ⟨"", "", "", "", "", "", "", [], [], [], 0, 0, 0, []⟩

/-- Counter `foo` of the end-to-end scenario. -/
def mCounterFoo : Metric := ⟨"foo", "", "", "x", "counter", "", "", [], [], [], 0, 0, 0, []⟩

/-- Gauge `foo` of the end-to-end scenario. -/
def mGaugeFoo : Metric := ⟨"foo", "", "", "x", "gauge", "", "", [], [], [], 0, 0, 0, []⟩

/-- Counter `bar` of the end-to-end scenario. -/
def mCounterBar : Metric := ⟨"bar", "", "", "y", "counter", "", "", [], [], [], 0, 0, 0, []⟩

/-- A record whose bucket list is `[1, 2, 3]`. -/
def mBuckets123 : Metric :=
  ⟨"m", "", "", "", "", "", "", [], [Float64.val 1, Float64.val 2, Float64.val 3], [], 0, 0, 0, []⟩

/-- The same record with buckets reversed to `[3, 2, 1]`. -/
def mBuckets321 : Metric :=
  ⟨"m", "", "", "", "", "", "", [], [Float64.val 3, Float64.val 2, Float64.val 1], [], 0, 0, 0, []⟩

/-- A record carrying a NaN bucket boundary. -/
def mNaNBucket : Metric :=
  ⟨"m", "", "", "", "", "", "", [], [Float64.nan], [], 0, 0, 0, []⟩

/-! ### C3: the identity key -/

/-- Identity key as the spec words it: join, with the fixed separator, exactly
the non-empty components among namespace, subsystem, name in that order (the
name participates even when empty). -/
def metricKeySpec (ns ss nm : String) : String :=
  String.intercalate "_" (([ns, ss].filter (fun s => decide (s ≠ ""))) ++ [nm])

/-- C3: for every record the identity key is the separator-join of exactly the
non-empty components among [namespace, subsystem, name] in that order, and the
key function is pure: it depends only on that triple, so equal triples give
equal keys no matter what the remaining fields hold. -/
theorem metricKey_matches_spec :
    (∀ m : Metric, metricKey m = metricKeySpec m.namespace_ m.subsystem m.name) ∧
    (∀ (nm ss ns hp ty dv sl : String) (lb : List String) (bk : List Float64)
       (ob : List (Float64 × Float64)) (ab bc : Nat) (ma : Int)
       (cl : List (String × String)) (hp' ty' dv' sl' : String) (lb' : List String)
       (bk' : List Float64) (ob' : List (Float64 × Float64)) (ab' bc' : Nat)
       (ma' : Int) (cl' : List (String × String)),
       metricKey ⟨nm, ss, ns, hp, ty, dv, sl, lb, bk, ob, ab, bc, ma, cl⟩ =
       metricKey ⟨nm, ss, ns, hp', ty', dv', sl', lb', bk', ob', ab', bc', ma', cl'⟩) := by
  constructor
  · intro m
    by_cases h1 : m.namespace_ = "" <;> by_cases h2 : m.subsystem = "" <;>
      simp [metricKey, metricKeySpec, h1, h2]
  · intro nm ss ns hp ty dv sl lb bk ob ab bc ma cl hp' ty' dv' sl' lb' bk' ob' ab' bc' ma' cl'
    rfl

/-! ### C6: the three-way deprecation comparator -/

/-- C6: the deprecation comparator is three-way — becoming deprecated, no
longer deprecated, and deprecated-version change each produce their exact
message, and equal values produce nothing. -/
theorem deprecationChange_three_way (o n : String) :
    (o = "" → n ≠ "" →
      deprecationChange o n = ["Marked as deprecated in version `" ++ n ++ "`."]) ∧
    (o ≠ "" → n = "" → deprecationChange o n = ["No longer marked as deprecated."]) ∧
    (o ≠ "" → n ≠ "" → o ≠ n →
      deprecationChange o n =
        ["Deprecated version changed from `" ++ o ++ "` to `" ++ n ++ "`."]) ∧
    (o = n → deprecationChange o n = []) := by
  refine ⟨?_, ?_, ?_, ?_⟩
  · rintro rfl hn
    simp [deprecationChange, Ne.symm hn]
  · rintro ho rfl
    simp [deprecationChange, ho]
  · intro ho hn hon
    simp [deprecationChange, ho, hn, hon]
  · rintro rfl
    simp [deprecationChange]

/-- Witness for C6 at the spec's three transition scenarios. -/
theorem deprecationChange_three_way_witness :
    deprecationChange "" "1.30" = ["Marked as deprecated in version `1.30`."] ∧
    deprecationChange "1.30" "" = ["No longer marked as deprecated."] ∧
    deprecationChange "1.30" "1.31" = ["Deprecated version changed from `1.30` to `1.31`."] :=
  ⟨(deprecationChange_three_way "" "1.30").1 rfl (by decide),
   (deprecationChange_three_way "1.30" "").2.1 (by decide) rfl,
   (deprecationChange_three_way "1.30" "1.31").2.2.1 (by decide) (by decide) (by decide)⟩

/-! ### C4: compare(S, S) -/

/-- Counterexample for C4 as frozen: a snapshot with a NaN bucket boundary is
reported as changed against itself, because IEEE equality makes
`equalFloat64Slices` non-reflexive on NaN. -/
theorem compareMetrics_self_nan_cex :
    Float64.nan ∈ mNaNBucket.buckets ∧
    compareMetrics [("m", mNaNBucket)] [("m", mNaNBucket)] =
      [⟨"m", DiffType.Updated, some mNaNBucket, some mNaNBucket, ["Buckets changed."]⟩] ∧
    compareMetrics [("m", mNaNBucket)] [("m", mNaNBucket)] ≠ [] := by
  decide

/-- C4 amended: for every snapshot S (a Go map, so keys are distinct and each
record's constant-label map has distinct keys) none of whose records carries a
NaN bucket boundary, `compareMetrics S S` is the empty diff sequence. -/
theorem compareMetrics_self_eq_nil (S : List (String × Metric))
    (hk : nodupKeys S)
    (hcl : ∀ p ∈ S, nodupKeys p.2.constLabels)
    (hnan : ∀ p ∈ S, Float64.nan ∉ p.2.buckets) :
    compareMetrics S S = [] := by
  have h1 : S.filterMap (diffForNewEntry S) = [] := by
    rw [List.filterMap_eq_nil_iff]
    intro e he
    have hlook : S.lookup e.1 = some e.2 :=
      lookup_eq_some_of_mem hk (by rw [Prod.mk.eta]; exact he)
    unfold diffForNewEntry
    rw [hlook]
    simp [computeChanges_self e.2 (hcl e he) (hnan e he)]
  have h2 : S.filterMap (diffForOldEntry S) = [] := by
    rw [List.filterMap_eq_nil_iff]
    intro e he
    have hlook : S.lookup e.1 = some e.2 :=
      lookup_eq_some_of_mem hk (by rw [Prod.mk.eta]; exact he)
    unfold diffForOldEntry
    rw [hlook]
  unfold compareMetrics
  rw [h1, h2]
  rfl

/-- Witness for the amended C4 on a concrete two-record snapshot. -/
theorem compareMetrics_self_eq_nil_witness :
    compareMetrics [("foo", mCounterFoo), ("bar", mCounterBar)]
                   [("foo", mCounterFoo), ("bar", mCounterBar)] = [] :=
  compareMetrics_self_eq_nil _ (by decide) (by decide) (by decide)

/-! ### C8: indexing with last-write-wins -/

theorem getLast?_cons_or (a : α) (l : List α) : (a :: l).getLast? = l.getLast?.or (some a) := by
  rw [List.getLast?_cons]
  cases l.getLast? <;> rfl

theorem lookup_append [BEq α] (l₁ l₂ : List (α × β)) (k : α) :
    (l₁ ++ l₂).lookup k = (l₁.lookup k).or (l₂.lookup k) := by
  induction l₁ with
  | nil => simp [List.lookup]
  | cons p l ih =>
    obtain ⟨a, b⟩ := p
    simp only [List.cons_append, List.lookup]
    cases k == a <;> simp [ih]

theorem lookup_map_replace [BEq α] [LawfulBEq α] (l : List (α × β)) (kk : α) (v : β) (k : α) :
    (l.map (fun p => if p.1 == kk then (kk, v) else p)).lookup k =
      if k == kk then (if (l.lookup kk).isSome then some v else none) else l.lookup k := by
  induction l with
  | nil => simp [List.lookup]
  | cons p l ih =>
    obtain ⟨a, b⟩ := p
    by_cases hak : a = kk
    · subst hak
      simp only [List.map_cons, beq_self_eq_true, if_true]
      cases hka : k == a with
      | true => simp [List.lookup, hka]
      | false => simp [List.lookup, hka, ih]
    · have hb : (a == kk) = false := beq_eq_false_iff_ne.mpr hak
      simp only [List.map_cons, hb, Bool.false_eq_true, if_false]
      cases hka : k == a with
      | true =>
        have hkkk : (k == kk) = false :=
          beq_eq_false_iff_ne.mpr (by rw [eq_of_beq hka]; exact hak)
        simp [List.lookup, hka, hkkk]
      | false =>
        have hkka : (kk == a) = false := beq_eq_false_iff_ne.mpr (Ne.symm hak)
        simp only [List.lookup, hka, ih]
        simp only [hkka]

theorem lookup_insertGo [BEq α] [LawfulBEq α] (l : List (α × β)) (kk k : α) (v : β) :
    (insertGo l kk v).lookup k = if k == kk then some v else l.lookup k := by
  unfold insertGo
  by_cases hs : (l.lookup kk).isSome = true
  · rw [if_pos hs, lookup_map_replace]
    simp [hs]
  · rw [if_neg hs, lookup_append]
    have hnone : l.lookup kk = none := by
      cases hlk : l.lookup kk with
      | none => rfl
      | some w => rw [hlk] at hs; simp at hs
    cases hk : k == kk with
    | true =>
      rw [eq_of_beq hk, hnone]
      simp [List.lookup]
    | false =>
      simp [List.lookup, hk]

theorem nodupKeys_insertGo [BEq α] [LawfulBEq α] {l : List (α × β)} (h : nodupKeys l)
    (kk : α) (v : β) : nodupKeys (insertGo l kk v) := by
  unfold insertGo
  by_cases hs : (l.lookup kk).isSome = true
  · rw [if_pos hs]
    have hkeys : keysOf (l.map (fun p => if p.1 == kk then (kk, v) else p)) = keysOf l := by
      simp only [keysOf, List.map_map]
      apply List.map_congr_left
      intro p _
      by_cases hpk : p.1 = kk
      · simp [Function.comp, hpk]
      · simp [Function.comp, beq_eq_false_iff_ne.mpr hpk]
    show (keysOf _).Nodup
    rw [hkeys]
    exact h
  · rw [if_neg hs]
    have hnone : l.lookup kk = none := by
      cases hlk : l.lookup kk with
      | none => rfl
      | some w => rw [hlk] at hs; simp at hs
    have hkk : kk ∉ keysOf l := (lookup_eq_none_iff l kk).mp hnone
    show (keysOf (l ++ [(kk, v)])).Nodup
    simp only [keysOf, List.map_append, List.map_cons, List.map_nil]
    rw [List.nodup_append]
    refine ⟨h, List.nodup_singleton _, ?_⟩
    intro x hx hx'
    simp only [List.mem_singleton] at hx'
    subst hx'
    exact hkk hx

theorem lookup_foldl_insertGo (ms : List Metric) (acc : List (String × Metric)) (k : String) :
    (ms.foldl (fun a m => insertGo a (metricKey m) m) acc).lookup k =
      ((ms.filter (fun m => metricKey m == k)).getLast?).or (acc.lookup k) := by
  induction ms generalizing acc with
  | nil => simp
  | cons m ms ih =>
    rw [List.foldl_cons, ih, List.filter_cons]
    cases hm : metricKey m == k with
    | true =>
      rw [if_pos rfl, getLast?_cons_or, Option.or_assoc]
      congr 1
      rw [lookup_insertGo]
      have : (k == metricKey m) = true := by rw [eq_of_beq hm]; exact beq_self_eq_true k
      simp [this]
    | false =>
      rw [if_neg Bool.false_ne_true]
      congr 1
      rw [lookup_insertGo]
      have : (k == metricKey m) = false := by
        cases hkm : k == metricKey m with
        | false => rfl
        | true =>
          rw [eq_of_beq hkm, beq_self_eq_true] at hm
          cases hm
      simp [this]

theorem nodupKeys_indexMetrics (ms : List Metric) : nodupKeys (indexMetrics ms) := by
  suffices h : ∀ acc : List (String × Metric), nodupKeys acc →
      nodupKeys (ms.foldl (fun a m => insertGo a (metricKey m) m) acc) from
    h [] (by simp [nodupKeys, keysOf])
  induction ms with
  | nil => exact fun acc h => h
  | cons m ms ih => exact fun acc h => ih _ (nodupKeys_insertGo h _ _)

/-- C8: indexing inserts each decoded record under its identity key in decode
order with silent last-write-wins — the mapping holds, for each key, exactly
the last record in decode order bearing that key, has pairwise-distinct keys,
and mentions exactly the keys of the decoded records. -/
theorem indexMetrics_last_write_wins (ms : List Metric) (k : String) :
    (indexMetrics ms).lookup k = (ms.filter (fun m => metricKey m == k)).getLast? ∧
    nodupKeys (indexMetrics ms) ∧
    (k ∈ keysOf (indexMetrics ms) ↔ ∃ m ∈ ms, metricKey m = k) := by
  have hmain : (indexMetrics ms).lookup k =
      (ms.filter (fun m => metricKey m == k)).getLast? := by
    unfold indexMetrics
    rw [lookup_foldl_insertGo]
    simp [List.lookup]
  refine ⟨hmain, nodupKeys_indexMetrics ms, ?_, ?_⟩
  · intro hk
    have hne : (indexMetrics ms).lookup k ≠ none :=
      fun hn => ((lookup_eq_none_iff _ k).mp hn) hk
    rw [hmain] at hne
    rcases hfl : ms.filter (fun m => metricKey m == k) with _ | ⟨m, rest⟩
    · rw [hfl] at hne; simp at hne
    · have hm : m ∈ ms.filter (fun m => metricKey m == k) := by
        rw [hfl]; exact List.mem_cons_self _ _
      rcases List.mem_filter.mp hm with ⟨hms, hkey⟩
      exact ⟨m, hms, eq_of_beq hkey⟩
  · rintro ⟨m, hms, rfl⟩
    by_contra hk
    have hlz : (indexMetrics ms).lookup (metricKey m) = none :=
      (lookup_eq_none_iff _ _).mpr hk
    rw [hmain] at hlz
    have hm : m ∈ ms.filter (fun m' => metricKey m' == metricKey m) :=
      List.mem_filter.mpr ⟨hms, beq_self_eq_true _⟩
    rcases hfl : ms.filter (fun m' => metricKey m' == metricKey m) with _ | ⟨a, rest⟩
    · rw [hfl] at hm; cases hm
    · rw [hfl, List.getLast?_cons] at hlz
      cases hlz

/-- Witness for C8: with two decode-order records sharing the key `foo`, the
mapping holds the later one. -/
theorem indexMetrics_last_write_wins_witness :
    (indexMetrics [mCounterFoo, mGaugeFoo]).lookup "foo" = some mGaugeFoo :=
  ((indexMetrics_last_write_wins [mCounterFoo, mGaugeFoo] "foo").1).trans (by decide)

/-! ### C7: the bucket-boundaries comparator -/

theorem equalFloat64Slices_iff (a b : List Float64) :
    equalFloat64Slices a b = true ↔
      (a.length = b.length ∧ ∀ i (h₁ : i < a.length) (h₂ : i < b.length),
        Float64.beq (a.get ⟨i, h₁⟩) (b.get ⟨i, h₂⟩) = true) := by
  induction a generalizing b with
  | nil =>
    cases b with
    | nil => simp [equalFloat64Slices]
    | cons y ys => simp [equalFloat64Slices]
  | cons x xs ih =>
    cases b with
    | nil => simp [equalFloat64Slices]
    | cons y ys =>
      simp only [equalFloat64Slices, Bool.and_eq_true, List.length_cons]
      constructor
      · rintro ⟨hxy, hrest⟩
        rcases (ih ys).mp hrest with ⟨hlen, hidx⟩
        refine ⟨by omega, ?_⟩
        intro i h₁ h₂
        cases i with
        | zero => exact hxy
        | succ j => exact hidx j (by omega) (by omega)
      · rintro ⟨hlen, hidx⟩
        have hxy : Float64.beq x y = true := hidx 0 (by omega) (by omega)
        refine ⟨hxy, (ih ys).mpr ⟨by omega, ?_⟩⟩
        intro i h₁ h₂
        exact hidx (i + 1) (by omega) (by omega)

/-- C7: the bucket comparator emits exactly "Buckets changed." precisely when
the two float sequences differ element-wise (length or any position) under
order-sensitive exact IEEE floating-point equality, and emits nothing when
they agree at every position; in particular buckets [1,2,3] against [3,2,1]
are reported as changed. -/
theorem bucketsChange_iff (a b : List Float64) :
    (bucketsChange a b = ["Buckets changed."] ↔
      ¬ (a.length = b.length ∧ ∀ i (h₁ : i < a.length) (h₂ : i < b.length),
          Float64.beq (a.get ⟨i, h₁⟩) (b.get ⟨i, h₂⟩) = true)) ∧
    (bucketsChange a b = [] ↔
      (a.length = b.length ∧ ∀ i (h₁ : i < a.length) (h₂ : i < b.length),
        Float64.beq (a.get ⟨i, h₁⟩) (b.get ⟨i, h₂⟩) = true)) ∧
    compareMetrics [("m", mBuckets123)] [("m", mBuckets321)] =
      [⟨"m", DiffType.Updated, some mBuckets123, some mBuckets321, ["Buckets changed."]⟩] := by
  refine ⟨?_, ?_, by decide⟩
  · rw [← equalFloat64Slices_iff]
    unfold bucketsChange
    cases h : equalFloat64Slices a b with
    | true => simp [h]
    | false => simp [h]
  · rw [← equalFloat64Slices_iff]
    unfold bucketsChange
    cases h : equalFloat64Slices a b with
    | true => simp [h]
    | false => simp [h]

/-- Witness for C7: reversed buckets are reported, identical buckets are not. -/
theorem bucketsChange_iff_witness :
    bucketsChange [Float64.val 1, Float64.val 2, Float64.val 3]
                  [Float64.val 3, Float64.val 2, Float64.val 1] = ["Buckets changed."] ∧
    bucketsChange [Float64.val 1] [Float64.val 1] = [] := by
  constructor
  · refine (bucketsChange_iff _ _).1.mpr ?_
    intro h
    exact absurd (h.2 0 (by decide) (by decide)) (by decide)
  · refine (bucketsChange_iff _ _).2.1.mpr ⟨rfl, ?_⟩
    intro i h₁ h₂
    cases i with
    | zero => rfl
    | succ j => simp at h₁

/-! ### C9: symmetry of Added and Removed -/

theorem mem_compareMetrics_iff {old new : List (String × Metric)} {d : MetricDiff} :
    d ∈ compareMetrics old new ↔
      d ∈ new.filterMap (diffForNewEntry old) ∨ d ∈ old.filterMap (diffForOldEntry new) := by
  unfold compareMetrics sortByKey
  rw [(perm_insertionSortBy diffLe _).mem_iff]
  exact List.mem_append

theorem added_mem_iff (old new : List (String × Metric)) (k : String) :
    (∃ d ∈ compareMetrics old new, d.key = k ∧ d.type = DiffType.Added) ↔
      (k ∈ keysOf new ∧ old.lookup k = none) := by
  constructor
  · rintro ⟨d, hd, rfl, htype⟩
    rcases mem_compareMetrics_iff.mp hd with h1 | h2
    · rcases List.mem_filterMap.mp h1 with ⟨e, he, hfe⟩
      rcases diffForNewEntry_eq_some_iff.mp hfe with ⟨hl, rfl⟩ | ⟨om, hl, hc, rfl⟩
      · exact ⟨List.mem_map.mpr ⟨e, he, rfl⟩, hl⟩
      · cases htype
    · rcases List.mem_filterMap.mp h2 with ⟨e, he, hfe⟩
      rcases diffForOldEntry_eq_some_iff.mp hfe with ⟨hl, rfl⟩
      cases htype
  · rintro ⟨hk, hl⟩
    rcases List.mem_map.mp hk with ⟨e, he, rfl⟩
    refine ⟨⟨e.1, DiffType.Added, none, some e.2, []⟩, ?_, rfl, rfl⟩
    apply mem_compareMetrics_iff.mpr
    left
    exact List.mem_filterMap.mpr ⟨e, he, diffForNewEntry_eq_some_iff.mpr (Or.inl ⟨hl, rfl⟩)⟩

theorem removed_mem_iff (old new : List (String × Metric)) (k : String) :
    (∃ d ∈ compareMetrics old new, d.key = k ∧ d.type = DiffType.Removed) ↔
      (k ∈ keysOf old ∧ new.lookup k = none) := by
  constructor
  · rintro ⟨d, hd, rfl, htype⟩
    rcases mem_compareMetrics_iff.mp hd with h1 | h2
    · rcases List.mem_filterMap.mp h1 with ⟨e, he, hfe⟩
      rcases diffForNewEntry_eq_some_iff.mp hfe with ⟨hl, rfl⟩ | ⟨om, hl, hc, rfl⟩
      · cases htype
      · cases htype
    · rcases List.mem_filterMap.mp h2 with ⟨e, he, hfe⟩
      rcases diffForOldEntry_eq_some_iff.mp hfe with ⟨hl, rfl⟩
      exact ⟨List.mem_map.mpr ⟨e, he, rfl⟩, hl⟩
  · rintro ⟨hk, hl⟩
    rcases List.mem_map.mp hk with ⟨e, he, rfl⟩
    refine ⟨⟨e.1, DiffType.Removed, some e.2, none, []⟩, ?_, rfl, rfl⟩
    apply mem_compareMetrics_iff.mpr
    right
    exact List.mem_filterMap.mpr ⟨e, he, diffForOldEntry_eq_some_iff.mpr ⟨hl, rfl⟩⟩

/-- C9: for all snapshot pairs (A, B), a key is classified Added by
compare(A, B) exactly when it is classified Removed by compare(B, A), and
conversely for Removed/Added. -/
theorem compareMetrics_add_remove_symm (A B : List (String × Metric)) (k : String) :
    ((∃ d ∈ compareMetrics A B, d.key = k ∧ d.type = DiffType.Added) ↔
      (∃ d ∈ compareMetrics B A, d.key = k ∧ d.type = DiffType.Removed)) ∧
    ((∃ d ∈ compareMetrics A B, d.key = k ∧ d.type = DiffType.Removed) ↔
      (∃ d ∈ compareMetrics B A, d.key = k ∧ d.type = DiffType.Added)) := by
  constructor
  · rw [added_mem_iff, removed_mem_iff]
  · rw [removed_mem_iff, added_mem_iff]

/-- Witness for C9 on the end-to-end scenario snapshots. -/
theorem compareMetrics_add_remove_symm_witness :
    (∃ d ∈ compareMetrics [("foo", mCounterFoo)] [("foo", mGaugeFoo), ("bar", mCounterBar)],
        d.key = "bar" ∧ d.type = DiffType.Added) ↔
    (∃ d ∈ compareMetrics [("foo", mGaugeFoo), ("bar", mCounterBar)] [("foo", mCounterFoo)],
        d.key = "bar" ∧ d.type = DiffType.Removed) :=
  (compareMetrics_add_remove_symm [("foo", mCounterFoo)]
    [("foo", mGaugeFoo), ("bar", mCounterBar)] "bar").1

/-! ### C1: partition completeness -/

/-- C1: for every pair of snapshots, each key of the union is classified
exactly once — filtering the output on a key yields exactly one Added diff
(referencing only the new record) for keys only in `new`, exactly one Removed
diff (referencing only the old record) for keys only in `old`, exactly one
Updated diff with the non-empty change list for keys in both with changes,
nothing for keys in both without changes, and nothing for foreign keys. -/
theorem compareMetrics_partition (old new : List (String × Metric))
    (hko : nodupKeys old) (hkn : nodupKeys new) (k : String) :
    (∀ m, old.lookup k = none → new.lookup k = some m →
      (compareMetrics old new).filter (fun d => d.key == k) =
        [⟨k, DiffType.Added, none, some m, []⟩]) ∧
    (∀ m, old.lookup k = some m → new.lookup k = none →
      (compareMetrics old new).filter (fun d => d.key == k) =
        [⟨k, DiffType.Removed, some m, none, []⟩]) ∧
    (∀ om nm, old.lookup k = some om → new.lookup k = some nm →
      (computeChanges om nm ≠ [] →
        (compareMetrics old new).filter (fun d => d.key == k) =
          [⟨k, DiffType.Updated, some om, some nm, computeChanges om nm⟩]) ∧
      (computeChanges om nm = [] →
        (compareMetrics old new).filter (fun d => d.key == k) = [])) ∧
    (old.lookup k = none → new.lookup k = none →
      (compareMetrics old new).filter (fun d => d.key == k) = []) := by
  have hf1 : ∀ e d, diffForNewEntry old e = some d → d.key = e.1 :=
    fun e d h => key_of_diffForNewEntry h
  have hf2 : ∀ e d, diffForOldEntry new e = some d → d.key = e.1 :=
    fun e d h => key_of_diffForOldEntry h
  have hperm : ((compareMetrics old new).filter (fun d => d.key == k)).Perm
      ((new.filterMap (diffForNewEntry old)).filter (fun d => d.key == k) ++
       (old.filterMap (diffForOldEntry new)).filter (fun d => d.key == k)) := by
    unfold compareMetrics sortByKey
    rw [← List.filter_append]
    exact (perm_insertionSortBy diffLe _).filter _
  refine ⟨?_, ?_, ?_, ?_⟩
  · intro m ho hn
    have h1 : (new.filterMap (diffForNewEntry old)).filter (fun d => d.key == k) =
        (diffForNewEntry old (k, m)).toList :=
      filter_key_filterMap_of_mem hf1 hkn (mem_of_lookup_eq_some hn)
    have h2 : (old.filterMap (diffForOldEntry new)).filter (fun d => d.key == k) = [] :=
      filter_key_filterMap_of_not_mem hf2 ((lookup_eq_none_iff old k).mp ho)
    have hval : diffForNewEntry old (k, m) = some ⟨k, DiffType.Added, none, some m, []⟩ := by
      simp [diffForNewEntry, ho]
    rw [h1, h2, hval] at hperm
    exact List.perm_singleton.mp (by simpa using hperm)
  · intro m ho hn
    have h1 : (new.filterMap (diffForNewEntry old)).filter (fun d => d.key == k) = [] :=
      filter_key_filterMap_of_not_mem hf1 ((lookup_eq_none_iff new k).mp hn)
    have h2 : (old.filterMap (diffForOldEntry new)).filter (fun d => d.key == k) =
        (diffForOldEntry new (k, m)).toList :=
      filter_key_filterMap_of_mem hf2 hko (mem_of_lookup_eq_some ho)
    have hval : diffForOldEntry new (k, m) = some ⟨k, DiffType.Removed, some m, none, []⟩ := by
      simp [diffForOldEntry, hn]
    rw [h1, h2, hval] at hperm
    exact List.perm_singleton.mp (by simpa using hperm)
  · intro om nm ho hn
    have h1 : (new.filterMap (diffForNewEntry old)).filter (fun d => d.key == k) =
        (diffForNewEntry old (k, nm)).toList :=
      filter_key_filterMap_of_mem hf1 hkn (mem_of_lookup_eq_some hn)
    have h2 : (old.filterMap (diffForOldEntry new)).filter (fun d => d.key == k) =
        (diffForOldEntry new (k, om)).toList :=
      filter_key_filterMap_of_mem hf2 hko (mem_of_lookup_eq_some ho)
    have hval2 : diffForOldEntry new (k, om) = none := by
      simp [diffForOldEntry, hn]
    constructor
    · intro hc
      have hval1 : diffForNewEntry old (k, nm) =
          some ⟨k, DiffType.Updated, some om, some nm, computeChanges om nm⟩ := by
        simp [diffForNewEntry, ho, hc]
      rw [h1, h2, hval1, hval2] at hperm
      exact List.perm_singleton.mp (by simpa using hperm)
    · intro hc
      have hval1 : diffForNewEntry old (k, nm) = none := by
        simp [diffForNewEntry, ho, hc]
      rw [h1, h2, hval1, hval2] at hperm
      exact hperm.eq_nil
  · intro ho hn
    have h1 : (new.filterMap (diffForNewEntry old)).filter (fun d => d.key == k) = [] :=
      filter_key_filterMap_of_not_mem hf1 ((lookup_eq_none_iff new k).mp hn)
    have h2 : (old.filterMap (diffForOldEntry new)).filter (fun d => d.key == k) = [] :=
      filter_key_filterMap_of_not_mem hf2 ((lookup_eq_none_iff old k).mp ho)
    rw [h1, h2] at hperm
    exact hperm.eq_nil

/-- Witness for C1 on the end-to-end scenario: key `bar` is classified Added
exactly once, referencing only the new record. -/
theorem compareMetrics_partition_witness :
    (compareMetrics [("foo", mCounterFoo)]
        [("foo", mGaugeFoo), ("bar", mCounterBar)]).filter (fun d => d.key == "bar") =
      [⟨"bar", DiffType.Added, none, some mCounterBar, []⟩] :=
  ((compareMetrics_partition [("foo", mCounterFoo)] [("foo", mGaugeFoo), ("bar", mCounterBar)]
      (by decide) (by decide) "bar").1) mCounterBar (by decide) (by decide)

/-! ### C5: sorted output, unique keys, deterministic ordering -/

theorem keys_pre_compare_nodup (old new : List (String × Metric))
    (hko : nodupKeys old) (hkn : nodupKeys new) :
    ((new.filterMap (diffForNewEntry old) ++ old.filterMap (diffForOldEntry new)).map
      (fun d => d.key)).Nodup := by
  have hf1 : ∀ e d, diffForNewEntry old e = some d → d.key = e.1 :=
    fun e d h => key_of_diffForNewEntry h
  have hf2 : ∀ e d, diffForOldEntry new e = some d → d.key = e.1 :=
    fun e d h => key_of_diffForOldEntry h
  rw [List.map_append, List.nodup_append]
  refine ⟨(keys_filterMap_sublist hf1 new).nodup hkn,
          (keys_filterMap_sublist hf2 old).nodup hko, ?_⟩
  intro x hx1 hx2
  have hxn : x ∈ keysOf new := (keys_filterMap_sublist hf1 new).subset hx1
  rcases List.mem_map.mp hx2 with ⟨d, hd, rfl⟩
  rcases List.mem_filterMap.mp hd with ⟨e, he, hfe⟩
  rcases diffForOldEntry_eq_some_iff.mp hfe with ⟨hl, rfl⟩
  exact ((lookup_eq_none_iff new _).mp hl) hxn

theorem pairwise_key_lt_compareMetrics (old new : List (String × Metric))
    (hko : nodupKeys old) (hkn : nodupKeys new) :
    (compareMetrics old new).Pairwise (fun a b => a.key < b.key) := by
  have hle : (compareMetrics old new).Pairwise (fun a b => diffLe a b = true) := by
    unfold compareMetrics sortByKey
    exact pairwise_insertionSortBy diffLe (fun x y h => strLeB_total _ _ h)
      (fun x y z h₁ h₂ => strLeB_trans _ _ _ h₁ h₂) _
  have hnd : ((compareMetrics old new).map (fun d => d.key)).Nodup := by
    have hperm : (compareMetrics old new).Perm
        (new.filterMap (diffForNewEntry old) ++ old.filterMap (diffForOldEntry new)) := by
      unfold compareMetrics sortByKey
      exact perm_insertionSortBy diffLe _
    exact ((hperm.map (fun d => d.key)).symm).nodup (keys_pre_compare_nodup old new hko hkn)
  have hne : (compareMetrics old new).Pairwise (fun a b => a.key ≠ b.key) :=
    List.pairwise_map.mp hnd
  exact (hle.and hne).imp (fun h => lt_of_le_of_ne ((strLeB_iff _ _).mp h.1) h.2)

theorem compareMetrics_eq_of_perm (old new old' new' : List (String × Metric))
    (hko : nodupKeys old) (hkn : nodupKeys new)
    (ho : old'.Perm old) (hn : new'.Perm new) :
    compareMetrics old' new' = compareMetrics old new := by
  have hko' : nodupKeys old' := ((ho.map Prod.fst).symm).nodup hko
  have hkn' : nodupKeys new' := ((hn.map Prod.fst).symm).nodup hkn
  have hfun1 : ∀ e ∈ new', diffForNewEntry old' e = diffForNewEntry old e := by
    intro e _
    unfold diffForNewEntry
    rw [lookup_perm ho hko' e.1]
  have hfun2 : ∀ e ∈ old', diffForOldEntry new' e = diffForOldEntry new e := by
    intro e _
    unfold diffForOldEntry
    rw [lookup_perm hn hkn' e.1]
  have hpre : (new'.filterMap (diffForNewEntry old') ++
      old'.filterMap (diffForOldEntry new')).Perm
      (new.filterMap (diffForNewEntry old) ++ old.filterMap (diffForOldEntry new)) := by
    refine List.Perm.append ?_ ?_
    · rw [List.filterMap_congr hfun1]
      exact hn.filterMap _
    · rw [List.filterMap_congr hfun2]
      exact ho.filterMap _
  have hsort : (compareMetrics old' new').Perm (compareMetrics old new) := by
    unfold compareMetrics sortByKey
    exact ((perm_insertionSortBy diffLe _).trans hpre).trans
      (perm_insertionSortBy diffLe _).symm
  haveI : IsAntisymm MetricDiff (fun a b => a.key < b.key) :=
    ⟨fun a b h₁ h₂ => absurd h₂ (asymm h₁)⟩
  exact List.eq_of_perm_of_sorted hsort
    (pairwise_key_lt_compareMetrics old' new' hko' hkn')
    (pairwise_key_lt_compareMetrics old new hko hkn)

/-- C5: the diff sequence is strictly sorted by identity key in ascending
lexicographic order (hence no two entries share a key), the key list is
duplicate-free, and the output is identical for any reordering of the two
input mappings' entries — the result does not depend on map iteration
order. -/
theorem compareMetrics_sorted_unique_det (old new : List (String × Metric))
    (hko : nodupKeys old) (hkn : nodupKeys new) :
    (compareMetrics old new).Pairwise (fun a b => a.key < b.key) ∧
    ((compareMetrics old new).map (fun d => d.key)).Nodup ∧
    (∀ old' new', old'.Perm old → new'.Perm new →
      compareMetrics old' new' = compareMetrics old new) := by
  refine ⟨pairwise_key_lt_compareMetrics old new hko hkn, ?_, ?_⟩
  · have hperm : (compareMetrics old new).Perm
        (new.filterMap (diffForNewEntry old) ++ old.filterMap (diffForOldEntry new)) := by
      unfold compareMetrics sortByKey
      exact perm_insertionSortBy diffLe _
    exact ((hperm.map (fun d => d.key)).symm).nodup (keys_pre_compare_nodup old new hko hkn)
  · intro old' new' ho hn
    exact compareMetrics_eq_of_perm old new old' new' hko hkn ho hn

/-- Witness for C5: swapping the entry order of the old mapping leaves the
output unchanged. -/
theorem compareMetrics_sorted_unique_det_witness :
    compareMetrics [("b", mCounterBar), ("a", mCounterFoo)] [("a", mGaugeFoo)] =
      compareMetrics [("a", mCounterFoo), ("b", mCounterBar)] [("a", mGaugeFoo)] :=
  ((compareMetrics_sorted_unique_det [("a", mCounterFoo), ("b", mCounterBar)]
      [("a", mGaugeFoo)] (by decide) (by decide)).2.2)
    [("b", mCounterBar), ("a", mCounterFoo)] [("a", mGaugeFoo)]
    (List.Perm.swap ("a", mCounterFoo) ("b", mCounterBar) [])
    (List.Perm.refl _)

/-! ### C2: the label set-diff sub-algorithm -/

theorem mem_sortStrings {s : String} {X : List String} : s ∈ sortStrings X ↔ s ∈ X :=
  (perm_insertionSortBy strLeB X).mem_iff

theorem sortStrings_eq_nil_iff (X : List String) : sortStrings X = [] ↔ X = [] := by
  constructor
  · intro h
    have hp := perm_insertionSortBy strLeB X
    unfold sortStrings at h
    rw [h] at hp
    exact (hp.symm).eq_nil
  · rintro rfl
    rfl

theorem pairwise_lt_sortStrings {X : List String} (hX : X.Nodup) :
    (sortStrings X).Pairwise (· < ·) := by
  have hle : (sortStrings X).Pairwise (fun a b => strLeB a b = true) :=
    pairwise_insertionSortBy strLeB (fun x y h => strLeB_total x y h)
      (fun x y z h₁ h₂ => strLeB_trans x y z h₁ h₂) X
  have hnd : (sortStrings X).Nodup := ((perm_insertionSortBy strLeB X).symm).nodup hX
  exact (hle.and hnd).imp (fun h => lt_of_le_of_ne ((strLeB_iff _ _).mp h.1) h.2)

theorem quoteLabel_injective : Function.Injective quoteLabel := by
  intro a b h
  unfold quoteLabel at h
  have hd := congrArg String.data h
  simp only [String.data_append, List.append_assoc] at hd
  have hd2 : a.data = b.data :=
    List.append_cancel_right (List.append_cancel_left hd)
  cases a
  cases b
  exact congrArg String.mk hd2

theorem quotedSetDiff_mem (xs ys : List String) (s : String) :
    s ∈ (xs.dedup.filter (fun l => decide (l ∉ ys))).map quoteLabel ↔
      ∃ l, l ∈ xs ∧ l ∉ ys ∧ s = quoteLabel l := by
  simp only [List.mem_map, List.mem_filter, List.mem_dedup, decide_eq_true_eq]
  constructor
  · rintro ⟨l, ⟨hl, hly⟩, rfl⟩
    exact ⟨l, hl, hly, rfl⟩
  · rintro ⟨l, hl, hly, rfl⟩
    exact ⟨l, ⟨hl, hly⟩, rfl⟩

theorem quotedSetDiff_nodup (xs ys : List String) :
    ((xs.dedup.filter (fun l => decide (l ∉ ys))).map quoteLabel).Nodup :=
  ((List.nodup_dedup xs).filter _).map quoteLabel_injective

theorem quotedSetDiff_eq_nil_iff (xs ys : List String) :
    (xs.dedup.filter (fun l => decide (l ∉ ys))).map quoteLabel = [] ↔
      ∀ l ∈ xs, l ∈ ys := by
  rw [List.map_eq_nil_iff, List.filter_eq_nil_iff]
  simp [List.mem_dedup]

theorem if_length_pos_flip (A msg : List String) :
    (if A.length > 0 then msg else []) = (if A = [] then [] else msg) := by
  cases A <;> simp

/-- C2: for label sequences that differ as ordered lists, the comparator
computes quoted set differences per side, each emitted list lexicographically
sorted and duplicate-free; when both set differences are empty it emits the
reordering message naming both ordered lists, otherwise the added/removed
messages joined by the line-break marker; including the spec's two concrete
scenarios. -/
theorem compareLabelSlices_spec (oldL newL : List String) (_hne : oldL ≠ newL) :
    ((∀ l ∈ newL, l ∈ oldL) → (∀ l ∈ oldL, l ∈ newL) →
      compareLabelSlices oldL newL =
        "Labels reordered: [" ++ String.intercalate ", " oldL ++ "] → ["
          ++ String.intercalate ", " newL ++ "]") ∧
    (¬ ((∀ l ∈ newL, l ∈ oldL) ∧ (∀ l ∈ oldL, l ∈ newL)) →
      ∃ A R : List String,
        (∀ s, s ∈ A ↔ ∃ l, l ∈ newL ∧ l ∉ oldL ∧ s = quoteLabel l) ∧
        (∀ s, s ∈ R ↔ ∃ l, l ∈ oldL ∧ l ∉ newL ∧ s = quoteLabel l) ∧
        A.Pairwise (· < ·) ∧ R.Pairwise (· < ·) ∧
        compareLabelSlices oldL newL =
          String.intercalate " <br> "
            ((if A = [] then []
              else ["Added labels: [" ++ String.intercalate ", " A ++ "]."])
             ++ (if R = [] then []
              else ["Removed labels: [" ++ String.intercalate ", " R ++ "]."]))) ∧
    compareLabelSlices ["a", "b"] ["b", "a"] = "Labels reordered: [a, b] → [b, a]" ∧
    compareLabelSlices ["a", "b"] ["a", "c"] =
      "Added labels: [`c`]. <br> Removed labels: [`b`]." := by
  refine ⟨?_, ?_, by decide, by decide⟩
  · intro hsub1 hsub2
    have hA : sortStrings ((newL.dedup.filter (fun l => decide (l ∉ oldL))).map quoteLabel)
        = [] := by
      rw [sortStrings_eq_nil_iff, quotedSetDiff_eq_nil_iff]
      exact hsub1
    have hR : sortStrings ((oldL.dedup.filter (fun l => decide (l ∉ newL))).map quoteLabel)
        = [] := by
      rw [sortStrings_eq_nil_iff, quotedSetDiff_eq_nil_iff]
      exact hsub2
    unfold compareLabelSlices
    dsimp only
    rw [hA, hR]
    simp
  · intro hnotboth
    refine ⟨sortStrings ((newL.dedup.filter (fun l => decide (l ∉ oldL))).map quoteLabel),
            sortStrings ((oldL.dedup.filter (fun l => decide (l ∉ newL))).map quoteLabel),
            ?_, ?_, ?_, ?_, ?_⟩
    · intro s
      rw [mem_sortStrings]
      exact quotedSetDiff_mem newL oldL s
    · intro s
      rw [mem_sortStrings]
      exact quotedSetDiff_mem oldL newL s
    · exact pairwise_lt_sortStrings (quotedSetDiff_nodup newL oldL)
    · exact pairwise_lt_sortStrings (quotedSetDiff_nodup oldL newL)
    · have hor : sortStrings ((newL.dedup.filter (fun l => decide (l ∉ oldL))).map quoteLabel)
          ≠ [] ∨
          sortStrings ((oldL.dedup.filter (fun l => decide (l ∉ newL))).map quoteLabel)
          ≠ [] := by
        by_contra hc
        push_neg at hc
        apply hnotboth
        constructor
        · exact (quotedSetDiff_eq_nil_iff newL oldL).mp ((sortStrings_eq_nil_iff _).mp hc.1)
        · exact (quotedSetDiff_eq_nil_iff oldL newL).mp ((sortStrings_eq_nil_iff _).mp hc.2)
      unfold compareLabelSlices
      dsimp only
      rw [if_length_pos_flip, if_length_pos_flip]
      set A := sortStrings ((newL.dedup.filter (fun l => decide (l ∉ oldL))).map quoteLabel)
      set R := sortStrings ((oldL.dedup.filter (fun l => decide (l ∉ newL))).map quoteLabel)
      have hne2 : ((if A = [] then []
            else ["Added labels: [" ++ String.intercalate ", " A ++ "]."])
          ++ (if R = [] then []
            else ["Removed labels: [" ++ String.intercalate ", " R ++ "]."])) ≠ [] := by
        rcases hor with hA' | hR'
        · rw [if_neg hA']
          simp
        · rw [if_neg hR']
          by_cases hA2 : A = []
          · rw [if_pos hA2]
            simp
          · rw [if_neg hA2]
            simp
      rw [if_neg (fun h0 => hne2 (List.eq_nil_of_length_eq_zero h0))]

/-- Witness for C2 at the spec's reorder scenario. -/
theorem compareLabelSlices_spec_witness :
    compareLabelSlices ["a", "b"] ["b", "a"] = "Labels reordered: [a, b] → [b, a]" :=
  (compareLabelSlices_spec ["a", "b"] ["b", "a"] (by decide)).1 (by decide) (by decide)

/-! ### C10: the objectives field -/

/-- Same record as `mNaNBucket` except for a non-empty objectives mapping. -/
def mNaNBucketObj : Metric :=
  ⟨"m", "", "", "", "", "", "", [], [Float64.nan],
    [(Float64.val 1, Float64.val 2)], 0, 0, 0, []⟩

/-- Counter `foo` with a non-empty objectives mapping. -/
def mCounterFooObj : Metric :=
  ⟨"foo", "", "", "x", "counter", "", "", [], [], [(Float64.val 1, Float64.val 2)], 0, 0, 0, []⟩

/-- Counterexample for C10 as frozen: these two records agree on every
compared field (including their — NaN-carrying — bucket lists) and differ
only in objectives, yet compareMetrics emits a diff, because the bucket
comparator fires on the NaN it finds even in equal lists. -/
theorem objectives_cex :
    (mNaNBucket.help = mNaNBucketObj.help ∧ mNaNBucket.type = mNaNBucketObj.type ∧
     mNaNBucket.stabilityLevel = mNaNBucketObj.stabilityLevel ∧
     mNaNBucket.deprecatedVersion = mNaNBucketObj.deprecatedVersion ∧
     mNaNBucket.ageBuckets = mNaNBucketObj.ageBuckets ∧
     mNaNBucket.bufCap = mNaNBucketObj.bufCap ∧
     mNaNBucket.maxAge = mNaNBucketObj.maxAge ∧
     mNaNBucket.constLabels = mNaNBucketObj.constLabels ∧
     mNaNBucket.labels = mNaNBucketObj.labels ∧
     mNaNBucket.buckets = mNaNBucketObj.buckets) ∧
    mNaNBucket.objectives ≠ mNaNBucketObj.objectives ∧
    compareMetrics [("m", mNaNBucket)] [("m", mNaNBucketObj)] ≠ [] := by
  decide

/-- C10 amended: the comparators never consult the objectives field — the
change list is invariant under replacing either record's objectives — and a
matched pair that agrees on every compared field, whose bucket lists carry no
NaN, produces no diff at its key however its objectives differ. -/
theorem objectives_never_consulted :
    (∀ (o n : Metric) (a b : List (Float64 × Float64)),
      computeChanges
        ⟨o.name, o.subsystem, o.namespace_, o.help, o.type, o.deprecatedVersion,
          o.stabilityLevel, o.labels, o.buckets, a, o.ageBuckets, o.bufCap,
          o.maxAge, o.constLabels⟩
        ⟨n.name, n.subsystem, n.namespace_, n.help, n.type, n.deprecatedVersion,
          n.stabilityLevel, n.labels, n.buckets, b, n.ageBuckets, n.bufCap,
          n.maxAge, n.constLabels⟩ = computeChanges o n) ∧
    (∀ (old new : List (String × Metric)) (k : String) (o n : Metric),
      nodupKeys old → nodupKeys new →
      old.lookup k = some o → new.lookup k = some n →
      o.help = n.help → o.type = n.type → o.stabilityLevel = n.stabilityLevel →
      o.deprecatedVersion = n.deprecatedVersion → o.ageBuckets = n.ageBuckets →
      o.bufCap = n.bufCap → o.maxAge = n.maxAge → o.constLabels = n.constLabels →
      o.labels = n.labels → o.buckets = n.buckets →
      nodupKeys o.constLabels → Float64.nan ∉ o.buckets →
      (compareMetrics old new).filter (fun d => d.key == k) = []) := by
  constructor
  · intro o n a b
    rfl
  · intro old new k o n hko hkn ho hn h1 h2 h3 h4 h5 h6 h7 h8 h9 h10 hcl hnan
    have hcc : computeChanges o n = [] := by
      unfold computeChanges bucketsChange
      rw [← h1, ← h2, ← h3, ← h4, ← h5, ← h6, ← h7, ← h8, ← h9, ← h10]
      simp [deprecationChange_self, equalStringSlices_self,
            equalFloat64Slices_self hnan, deepEqualStringMap_self hcl]
    have hf1 : ∀ e d, diffForNewEntry old e = some d → d.key = e.1 :=
      fun e d h => key_of_diffForNewEntry h
    have hf2 : ∀ e d, diffForOldEntry new e = some d → d.key = e.1 :=
      fun e d h => key_of_diffForOldEntry h
    have hperm : ((compareMetrics old new).filter (fun d => d.key == k)).Perm
        ((new.filterMap (diffForNewEntry old)).filter (fun d => d.key == k) ++
         (old.filterMap (diffForOldEntry new)).filter (fun d => d.key == k)) := by
      unfold compareMetrics sortByKey
      rw [← List.filter_append]
      exact (perm_insertionSortBy diffLe _).filter _
    have ha : (new.filterMap (diffForNewEntry old)).filter (fun d => d.key == k) =
        (diffForNewEntry old (k, n)).toList :=
      filter_key_filterMap_of_mem hf1 hkn (mem_of_lookup_eq_some hn)
    have hb : (old.filterMap (diffForOldEntry new)).filter (fun d => d.key == k) =
        (diffForOldEntry new (k, o)).toList :=
      filter_key_filterMap_of_mem hf2 hko (mem_of_lookup_eq_some ho)
    have hv1 : diffForNewEntry old (k, n) = none := by
      simp [diffForNewEntry, ho, hcc]
    have hv2 : diffForOldEntry new (k, o) = none := by
      simp [diffForOldEntry, hn]
    rw [ha, hb, hv1, hv2] at hperm
    exact hperm.eq_nil

/-- Witness for the amended C10: a pair differing only in objectives,
NaN-free, yields no diff at its key. -/
theorem objectives_never_consulted_witness :
    (compareMetrics [("foo", mCounterFoo)] [("foo", mCounterFooObj)]).filter
      (fun d => d.key == "foo") = [] :=
  objectives_never_consulted.2 [("foo", mCounterFoo)] [("foo", mCounterFooObj)] "foo"
    mCounterFoo mCounterFooObj (by decide) (by decide) (by decide) (by decide)
    rfl rfl rfl rfl rfl rfl rfl rfl rfl rfl (by decide) (by decide)
